import Mathlib

/-!
Verification development for the temperature-analysis tool
(analyze_temps.py).  The analysis core is embedded shallowly:

* timestamps are modelled as epoch seconds (Int); temperature values and
  all floating-point arithmetic are modelled exactly over Rat;
* pandas / numpy / scipy calls are embedded by their observable behaviour
  at the program's call sites, with each modelling choice documented on
  the definition;
* exceptions are modelled with Except; the distinct failure modes of the
  numeric libraries get distinct error constructors.
-/

/-- Failure modes of the numeric libraries as raised at this program's
call sites.  emptyVector: numpy polyfit's TypeError on an empty x vector.
svdNotConverged: the LinAlgError raised by numpy lstsq when polyfit's
column scaling divides an all-zero Vandermonde column by a zero norm,
producing NaN entries.  nonFiniteGuess: scipy curve_fit's ValueError for
non-finite residuals at the initial point, reached when the initial rate
guess is 1/0.0 = inf.  emptyMax: numpy max's ValueError on a zero-size
array. -/
inductive NumError
  | emptyVector
  | svdNotConverged
  | nonFiniteGuess
  | emptyMax
deriving DecidableEq

/-- One typed data point: an absolute timestamp in epoch seconds and a
temperature value. -/
structure Sample where
  datetime : Int
  value : Rat
deriving DecidableEq

/-- Character class of the regex character set [\d\.]: a decimal digit or
a literal dot. -/
def isNumChar (c : Char) : Bool :=
  c.isDigit || c = '.'

/-- Leftmost maximal run of digit-or-dot characters, as matched by
re.search with the pattern ([\d\.]+) used in Series.str.extract: the
match starts at the first character of the class and the greedy + takes
the maximal run from there; none when the string has no such character. -/
def extractNumeric : List Char → Option (List Char)
  | [] => none
  | c :: rest =>
      if isNumChar c then some (c :: rest.takeWhile isNumChar)
      else extractNumeric rest

/-- Value of a digit character. -/
def digitVal (c : Char) : Nat := c.toNat - 48

/-- Natural number denoted by a list of digit characters (empty list
denotes 0). -/
def digitsToNat (ds : List Char) : Nat :=
  ds.foldl (fun n c => 10 * n + digitVal c) 0

/-- Rational denoted by a run of digits containing at most one dot:
integer part before the first dot, fractional part after it.  Python's
float would round this to the nearest IEEE double; the decimal value is
modelled exactly. -/
def floatOfNumericChars (s : List Char) : Rat :=
  let ip := s.takeWhile (fun c => c ≠ '.')
  let fp := (s.dropWhile (fun c => c ≠ '.')).drop 1
  (digitsToNat ip : Rat) + (digitsToNat fp : Rat) / 10 ^ fp.length

/-- Python float() restricted to strings of digits and dots: defined
exactly when the string has at least one digit and at most one dot
(so "47.3", "47.", ".3" parse and "", ".", "1.2.3" raise ValueError). -/
def pythonFloat (s : List Char) : Option Rat :=
  if s.any Char.isDigit ∧ s.count '.' ≤ 1 then some (floatOfNumericChars s)
  else none

/-- Result of normalizing one value field.  Series.str.extract yields NaN
for a string with no match, and astype(float) keeps that NaN, so a NaN
sample is a possible non-error outcome. -/
inductive NormValue
  | nan
  | num (q : Rat)
deriving DecidableEq

/-- Error outcome of normalizing one value field: the ValueError raised
by astype(float) on a non-float string. -/
inductive NormError
  | floatCastError
deriving DecidableEq

/-- Normalization of one value field, embedding
df["CPU_Temp"].str.extract(r'([\d\.]+)').astype(float) at a single cell:
no match yields NaN (float conversion of NaN succeeds); a match must be a
valid float string or astype raises ValueError. -/
def normalizeValue (s : List Char) : Except NormError NormValue :=
  match extractNumeric s with
  | none => .ok .nan
  | some m =>
      match pythonFloat m with
      | some q => .ok (.num q)
      | none => .error .floatCastError

/-- Retention test of filter_timeframe for one row: the start bound, when
present, keeps timestamps at or after it, and the end bound, when
present, keeps timestamps at or before it (both comparisons in the source
are >= and <=, hence inclusive). -/
def specRetain (startTime endTime : Option Int) (x : Sample) : Bool :=
  (match startTime with
   | none => true
   | some s => decide (s ≤ x.datetime)) &&
  (match endTime with
   | none => true
   | some e => decide (x.datetime ≤ e))

/-- Embedding of filter_timeframe: apply the start-bound filter when a
start time is configured, then the end-bound filter when an end time is
configured.  The truthiness test on the configured bound is modelled by
Option presence. -/
def filter_timeframe (df : List Sample) (startTime endTime : Option Int) :
    List Sample :=
  let f1 :=
    match startTime with
    | none => df
    | some s => df.filter (fun r => decide (s ≤ r.datetime))
  match endTime with
  | none => f1
  | some e => f1.filter (fun r => decide (r.datetime ≤ e))

/-- Minimum of the Datetime column (pandas Series.min); 0 on the empty
list, which no caller reaches with an observable result. -/
def minTime : List Sample → Int
  | [] => 0
  | s :: l => l.foldl (fun m x => min m x.datetime) s.datetime

/-- Elapsed seconds of every sample since the series' own minimum
timestamp: (df["Datetime"] - df["Datetime"].min()).dt.total_seconds(). -/
def elapsedSeconds (df : List Sample) : List Rat :=
  df.map (fun x => ((x.datetime - minTime df : Int) : Rat))

/-- Arithmetic mean of a list (pandas Series.mean); division by zero on
the empty list follows Rat's 0 convention and is never observable at the
call sites. -/
def listMean (xs : List Rat) : Rat := xs.sum / xs.length

/-- Sample variance with N-1 denominator (pandas Series.var, ddof = 1);
the NaN that pandas returns for fewer than two values is modelled as
none. -/
def pandasVar (vs : List Rat) : Option Rat :=
  if vs.length < 2 then none
  else some (((vs.map (fun v => (v - listMean vs) ^ 2)).sum) / (vs.length - 1))

/-- Embedding of np.polyfit(x, y, 1).  numpy raises TypeError on an empty
x vector.  It builds the Vandermonde matrix with columns (x, 1) and
normalizes each column by its Euclidean norm before lstsq: when x is all
zeros the first column's norm is 0 and the scaled column is NaN, on which
lstsq's SVD fails with LinAlgError.  For constant nonzero x the scaled
matrix is finite but rank deficient and lstsq returns the minimum-norm
solution of the scaled system; rescaled this gives (ȳ/(2·x₀), ȳ/2) for
constant positive x₀ — a branch no call site of this program reaches,
since both call sites pass elapsed times that start at 0.  Otherwise the
full-rank least-squares solution is the textbook normal-equations
answer. -/
def np_polyfit1 (x y : List Rat) : Except NumError (Rat × Rat) :=
  if x.length = 0 then .error .emptyVector
  else if x.all (· = 0) then .error .svdNotConverged
  else
    let n : Rat := x.length
    let sx := x.sum
    let sy := y.sum
    let sxx := (x.map (fun a => a ^ 2)).sum
    let sxy := ((x.zip y).map (fun p => p.1 * p.2)).sum
    let d := n * sxx - sx ^ 2
    if d = 0 then .ok (sy / (2 * n * x.headD 1), sy / (2 * n))
    else .ok ((n * sxy - sx * sy) / d, (sy - (n * sxy - sx * sy) / d * sx) / n)

/-- Statistics record returned by analyze_data: mean temperature,
temperature variance and temperature rise per hour. -/
structure Stats where
  mean : Rat
  variance : Option Rat
  risePerHour : Rat
deriving DecidableEq

/-- Embedding of analyze_data: mean and variance of the temperature
column, then the degree-1 polyfit slope of temperature against hours
elapsed since the series' own minimum timestamp.  mean and var only log
before polyfit runs, so a polyfit exception is the function's only
failure mode and nothing is returned before it. -/
def analyze_data (df : List Sample) : Except NumError Stats :=
  let vals := df.map Sample.value
  let hours := (elapsedSeconds df).map (fun t => t / 3600)
  match np_polyfit1 hours vals with
  | .error e => .error e
  | .ok c => .ok ⟨listMean vals, pandasVar vals, c.1⟩

/-- Maximum of a list of values (np.max); 0 on the empty list, which is
guarded by the emptyMax error before use. -/
def listMax : List Rat → Rat
  | [] => 0
  | x :: l => l.foldl max x

/-- Minimum of a list of values (np.min); 0 on the empty list. -/
def listMin : List Rat → Rat
  | [] => 0
  | x :: l => l.foldl min x

/-- The exact argument package fit_trend hands to scipy curve_fit: the
data arrays, the initial guesses p0 = (max temp, max temp - min temp,
1 / mean elapsed seconds), and the bounds ([0,0,0], [inf,inf,inf]) with
+inf modelled as none. -/
structure CurveFitArgs where
  xdata : List Rat
  ydata : List Rat
  p0 : Rat × Rat × Rat
  lowerBounds : Rat × Rat × Rat
  upperBounds : Option Rat × Option Rat × Option Rat
deriving DecidableEq

/-- Outcome of one scipy curve_fit call: either converged parameters
(a, b, c) of the model a - b * exp(-c * t), or the RuntimeError that
curve_fit raises when the solver does not converge. -/
inductive SolverOutcome
  | converged (a b c : Rat)
  | runtimeError

/-- The curve_fit argument package built by fit_trend from a series.  The
c component of p0 is 1 / mean elapsed seconds; when that mean is 0 the
source computes inf here (a numpy warning, not an exception) and the
solver is never consulted with a meaningful package, so the Rat value in
that case is irrelevant junk. -/
def curveFitArgs (df : List Sample) : CurveFitArgs :=
  let ts := elapsedSeconds df
  let temps := df.map Sample.value
  ⟨ts, temps,
   (listMax temps, listMax temps - listMin temps, 1 / listMean ts),
   (0, 0, 0), (none, none, none)⟩

/-- Fitted trend variant: the exponential-approach parameters, or the
linear fallback coefficients from np.polyfit. -/
inductive FitResult
  | expFit (a b c : Rat)
  | linFit (m k : Rat)
deriving DecidableEq

/-- What fit_trend returns on success: the elapsed-seconds array, the
active fit variant, and whether the fallback warning was emitted. -/
structure FitOutput where
  timestamps : List Rat
  result : FitResult
  fallbackWarning : Bool
deriving DecidableEq

/-- Embedding of fit_trend, parametric in the nonlinear solver.  On an
empty series np.max raises first (emptyMax).  When the mean elapsed time
is 0, c_guess = 1/0.0 evaluates to inf without an exception, and
curve_fit then raises ValueError for non-finite residuals at the initial
point; the except handler catches only RuntimeError, so that ValueError
escapes (nonFiniteGuess).  Otherwise the solver is consulted on exactly
curveFitArgs df: convergence yields the exponential fit, and a
RuntimeError triggers the linear np.polyfit fallback together with the
warning. -/
def fit_trend (solver : CurveFitArgs → SolverOutcome) (df : List Sample) :
    Except NumError FitOutput :=
  let ts := elapsedSeconds df
  let temps := df.map Sample.value
  if temps.length = 0 then .error .emptyMax
  else if listMean ts = 0 then .error .nonFiniteGuess
  else
    match solver (curveFitArgs df) with
    | .converged a b c => .ok ⟨ts, .expFit a b c, false⟩
    | .runtimeError =>
        match np_polyfit1 ts temps with
        | .ok mk => .ok ⟨ts, .linFit mk.1 mk.2, true⟩
        | .error e => .error e

/-- Terminal outcome of one analysis run: either the zero-data report
issued when the timeframe filter leaves nothing, or the completed
statistics plus trend fit. -/
inductive Outcome
  | zeroData
  | completed (stats : Stats) (fit : FitOutput)
deriving DecidableEq

/-- Embedding of main from the point where the series is typed: filter by
the configured timeframe, return the zero-data report when nothing is
retained (main logs and returns normally), otherwise run analyze_data and
then the trend fit done for plotting. -/
def runAnalysis (solver : CurveFitArgs → SolverOutcome) (df : List Sample)
    (startTime endTime : Option Int) : Except NumError Outcome :=
  let fdf := filter_timeframe df startTime endTime
  if fdf.length = 0 then .ok .zeroData
  else
    match analyze_data fdf with
    | .error e => .error e
    | .ok stats =>
        match fit_trend solver fdf with
        | .error e => .error e
        | .ok fit => .ok (.completed stats fit)

/-- Ordinary-least-squares slope in its textbook covariance form, written
from the spec's words: slope of the least-squares line of y against x. -/
def specOlsSlope (x y : List Rat) : Rat :=
  ((x.zip y).map (fun p => (p.1 - listMean x) * (p.2 - listMean y))).sum /
    ((x.map (fun a => (a - listMean x) ^ 2)).sum)

/-- Ordinary-least-squares intercept in its textbook form: mean of y
minus the slope times the mean of x. -/
def specOlsIntercept (x y : List Rat) : Rat :=
  listMean y - specOlsSlope x y * listMean x

/-- Abbreviation for the discriminant n · Σx² - (Σx)² of the degree-1
normal equations, the denominator in np_polyfit1's full-rank branch. -/
def olsDenom (x : List Rat) : Rat :=
  (x.length : Rat) * (x.map (fun a => a ^ 2)).sum - x.sum ^ 2


deriving instance DecidableEq for Except

section ListLemmas

variable {α : Type}

/-- takeWhile passes over a prefix whose elements all satisfy the
predicate. -/
lemma takeWhile_all_append (p : α → Bool) {l₁ : List α} (l₂ : List α)
    (h : ∀ c ∈ l₁, p c = true) :
    (l₁ ++ l₂).takeWhile p = l₁ ++ l₂.takeWhile p := by
  induction l₁ with
  | nil => rfl
  | cons a l ih =>
      have ha : p a = true := h a (List.mem_cons_self a l)
      simp [List.takeWhile_cons, ha,
        ih (fun c hc => h c (List.mem_cons_of_mem a hc))]

/-- dropWhile drops a prefix whose elements all satisfy the predicate. -/
lemma dropWhile_all_append (p : α → Bool) {l₁ : List α} (l₂ : List α)
    (h : ∀ c ∈ l₁, p c = true) :
    (l₁ ++ l₂).dropWhile p = l₂.dropWhile p := by
  induction l₁ with
  | nil => rfl
  | cons a l ih =>
      have ha : p a = true := h a (List.mem_cons_self a l)
      simp [List.dropWhile_cons, ha,
        ih (fun c hc => h c (List.mem_cons_of_mem a hc))]

/-- takeWhile of a list none of whose elements satisfies the predicate. -/
lemma takeWhile_all_neg (p : α → Bool) {l : List α}
    (h : ∀ c ∈ l, p c = false) : l.takeWhile p = [] := by
  cases l with
  | nil => rfl
  | cons a l => simp [List.takeWhile_cons, h a (List.mem_cons_self a l)]

end ListLemmas

/-- Timeframe filtering is a single List.filter with the inclusive
retention test. -/
lemma filter_timeframe_eq_filter (df : List Sample)
    (startTime endTime : Option Int) :
    filter_timeframe df startTime endTime = df.filter (specRetain startTime endTime) := by
  cases startTime with
  | none =>
      cases endTime with
      | none =>
          simp only [filter_timeframe]
          rw [eq_comm, List.filter_eq_self]
          intro a _
          simp [specRetain]
      | some e =>
          simp only [filter_timeframe]
          exact List.filter_congr (fun x _ => by simp [specRetain])
  | some s =>
      cases endTime with
      | none =>
          simp only [filter_timeframe]
          exact List.filter_congr (fun x _ => by simp [specRetain])
      | some e =>
          simp only [filter_timeframe, List.filter_filter]
          exact List.filter_congr (fun x _ => by
            simp [specRetain, Bool.and_comm])

/-- Claim C3: timeframe filtering retains exactly the samples inside the
inclusive window: the filtered series is the subsequence of samples x
with (start absent or start ≤ timestamp) and (end absent or timestamp ≤
end); a bound equal to a sample's timestamp acts on that sample exactly
like an absent bound, so boundary samples are retained. -/
theorem c3_filter_inclusive_window :
    (∀ (df : List Sample) (startTime endTime : Option Int),
      filter_timeframe df startTime endTime =
        df.filter (fun x =>
          decide (∀ s ∈ startTime, s ≤ x.datetime) &&
          decide (∀ e ∈ endTime, x.datetime ≤ e))) ∧
    (∀ (x : Sample) (endTime : Option Int),
      specRetain (some x.datetime) endTime x = specRetain none endTime x) ∧
    (∀ (x : Sample) (startTime : Option Int),
      specRetain startTime (some x.datetime) x = specRetain startTime none x) := by
  refine ⟨fun df startTime endTime => ?_, fun x endTime => ?_, fun x startTime => ?_⟩
  · rw [filter_timeframe_eq_filter]
    refine List.filter_congr (fun x _ => ?_)
    cases startTime <;> cases endTime <;> simp [specRetain]
  · cases endTime <;> simp [specRetain]
  · cases startTime <;> simp [specRetain]

/-- Claim C4: timeframe filtering is idempotent: filtering twice with
the same optional bounds equals filtering once. -/
theorem c4_filter_idempotent (df : List Sample)
    (startTime endTime : Option Int) :
    filter_timeframe (filter_timeframe df startTime endTime) startTime endTime =
      filter_timeframe df startTime endTime := by
  rw [filter_timeframe_eq_filter, filter_timeframe_eq_filter,
    List.filter_filter]
  exact List.filter_congr (fun x _ => by cases h : specRetain startTime endTime x <;> simp [h])

/-- Claim C1 counterexample: the value field "N/A" contains no digit
character, yet normalization returns a NaN sample and no error is
raised — Series.str.extract simply finds no match and astype(float)
accepts the resulting NaN, so the run does not abort on this row. -/
theorem c1_no_digits_counterexample :
    normalizeValue ['N', '/', 'A'] = .ok .nan ∧
    ∀ e, normalizeValue ['N', '/', 'A'] ≠ .error e := by
  refine ⟨by decide, ?_⟩
  intro e h
  cases e
  exact absurd h (by decide)


/-- extractNumeric on a string whose first character is in the class:
the match is that character plus the maximal following run. -/
lemma extractNumeric_cons_pos {c : Char} (h : isNumChar c = true)
    (rest : List Char) :
    extractNumeric (c :: rest) = some (c :: rest.takeWhile isNumChar) := by
  simp [extractNumeric, h]

/-- takeWhile steps over an element satisfying the predicate. -/
lemma takeWhile_cons_pos {α : Type} (p : α → Bool) (a : α) (h : p a = true)
    (l : List α) : (a :: l).takeWhile p = a :: l.takeWhile p := by
  simp [List.takeWhile_cons, h]

/-- takeWhile stops at an element violating the predicate. -/
lemma takeWhile_cons_neg {α : Type} (p : α → Bool) (a : α) (h : p a = false)
    (l : List α) : (a :: l).takeWhile p = [] := by
  simp [List.takeWhile_cons, h]

/-- dropWhile stops at an element violating the predicate. -/
lemma dropWhile_cons_neg {α : Type} (p : α → Bool) (a : α) (h : p a = false)
    (l : List α) : (a :: l).dropWhile p = a :: l := by
  simp [List.dropWhile_cons, h]

/-- Claim C1 amended: normalization of a value field aborts with a
float-conversion error exactly when the field contains a digit-or-dot
character and the first maximal run of such characters is not a valid
float string (it has no digit, or more than one dot); a field with no
digit-or-dot character at all yields a NaN sample and does not abort. -/
theorem c1_amended_abort_characterization (s : List Char) :
    (extractNumeric s = none → normalizeValue s = .ok .nan) ∧
    (∀ m, extractNumeric s = some m →
      ((∃ e, normalizeValue s = .error e) ↔
        ¬(m.any Char.isDigit = true ∧ m.count '.' ≤ 1))) := by
  constructor
  · intro h
    simp [normalizeValue, h]
  · intro m hm
    by_cases hc : (m.any Char.isDigit = true ∧ m.count '.' ≤ 1)
    · have hpf : pythonFloat m = some (floatOfNumericChars m) := by
        unfold pythonFloat
        rw [if_pos hc]
      simp only [normalizeValue, hm, hpf]
      constructor
      · rintro ⟨e, h⟩
        exact Except.noConfusion h
      · intro h
        exact absurd hc h
    · have hpf : pythonFloat m = none := by
        unfold pythonFloat
        rw [if_neg hc]
      simp only [normalizeValue, hm, hpf]
      constructor
      · intro _
        exact hc
      · intro _
        exact ⟨.floatCastError, by simp⟩

/-- Witness for the amended C1: the value field ".." has a digit-or-dot
run with no digit, and normalization aborts with the conversion error. -/
theorem c1_amended_abort_characterization_witness :
    ∃ e, normalizeValue ['.', '.'] = .error e :=
  ((c1_amended_abort_characterization ['.', '.']).2 ['.', '.']
    (by decide)).mpr (by decide)

/-- Claim C2 counterexample: on the value field "1.2.3C" the extraction
regex matches the run "1.2.3", which contains two decimal points — the
extracted substring is not limited to at most one decimal point (and the
subsequent float conversion of that run aborts). -/
theorem c2_two_dots_counterexample :
    extractNumeric ['1', '.', '2', '.', '3', 'C'] = some ['1', '.', '2', '.', '3'] ∧
    1 < (['1', '.', '2', '.', '3'] : List Char).count '.' ∧
    normalizeValue ['1', '.', '2', '.', '3', 'C'] = .error .floatCastError := by
  refine ⟨by decide, by decide, by decide⟩

/-- Claim C2 amended: value extraction returns the first maximal run of
digit-or-dot characters (which may contain several dots); for a value
string of the form digits, optionally one dot and further digits,
followed by decoration free of digits and dots, the extracted run is
exactly the numeric part and normalization yields the denoted rational. -/
theorem c2_amended_extract_first_run (ip fp deco : List Char)
    (hip : ip ≠ []) (hipd : ∀ c ∈ ip, c.isDigit = true)
    (hfpd : ∀ c ∈ fp, c.isDigit = true)
    (hdeco : ∀ c ∈ deco, isNumChar c = false) :
    extractNumeric (ip ++ '.' :: fp ++ deco) = some (ip ++ '.' :: fp) ∧
    normalizeValue (ip ++ '.' :: fp ++ deco) =
      .ok (.num ((digitsToNat ip : Rat) + (digitsToNat fp : Rat) / 10 ^ fp.length)) ∧
    extractNumeric (ip ++ deco) = some ip ∧
    normalizeValue (ip ++ deco) = .ok (.num (digitsToNat ip)) := by
  have hnum_ip : ∀ c ∈ ip, isNumChar c = true := fun c hc => by
    simp [isNumChar, hipd c hc]
  have hnum_fp : ∀ c ∈ fp, isNumChar c = true := fun c hc => by
    simp [isNumChar, hfpd c hc]
  have hnodot_ip : ∀ c ∈ ip, (c ≠ '.') := by
    intro c hc hcd
    have := hipd c hc
    rw [hcd] at this
    exact absurd this (by decide)
  have hnodot_fp : ∀ c ∈ fp, (c ≠ '.') := by
    intro c hc hcd
    have := hfpd c hc
    rw [hcd] at this
    exact absurd this (by decide)
  have hnodotb_ip : ∀ c ∈ ip, (fun c => decide (c ≠ '.')) c = true := by
    intro c hc
    simp [hnodot_ip c hc]
  have hnodotb_fp : ∀ c ∈ fp, (fun c => decide (c ≠ '.')) c = true := by
    intro c hc
    simp [hnodot_fp c hc]
  obtain ⟨a, ip', rfl⟩ : ∃ a ip', ip = a :: ip' := by
    cases ip with
    | nil => exact absurd rfl hip
    | cons a l => exact ⟨a, l, rfl⟩
  have ha : isNumChar a = true := hnum_ip a (List.mem_cons_self a ip')
  have hip'num : ∀ c ∈ ip', isNumChar c = true :=
    fun c hc => hnum_ip c (List.mem_cons_of_mem a hc)
  -- extraction in the dotted form
  have hex1 : extractNumeric ((a :: ip') ++ '.' :: fp ++ deco) =
      some ((a :: ip') ++ '.' :: fp) := by
    rw [List.cons_append, List.cons_append, extractNumeric_cons_pos ha,
      List.append_assoc, takeWhile_all_append _ _ hip'num, List.cons_append,
      takeWhile_cons_pos isNumChar '.' (show isNumChar '.' = true from rfl),
      takeWhile_all_append _ _ hnum_fp, takeWhile_all_neg _ hdeco,
      List.append_nil]
  -- extraction in the dotless form
  have hex2 : extractNumeric ((a :: ip') ++ deco) = some (a :: ip') := by
    rw [List.cons_append, extractNumeric_cons_pos ha,
      takeWhile_all_append _ _ hip'num, takeWhile_all_neg _ hdeco,
      List.append_nil]
  have hdotcount_ip : (a :: ip').count '.' = 0 := by
    rw [List.count_eq_zero]
    intro hmem
    exact hnodot_ip '.' hmem rfl
  have hdotcount_fp : fp.count '.' = 0 := by
    rw [List.count_eq_zero]
    intro hmem
    exact hnodot_fp '.' hmem rfl
  have hamem : a ∈ a :: ip' := List.mem_cons_self a ip'
  have hasdigit : ((a :: ip') ++ '.' :: fp).any Char.isDigit = true := by
    simp only [List.any_eq_true]
    exact ⟨a, List.mem_append_left _ hamem, hipd a hamem⟩
  have hasdigit2 : (a :: ip').any Char.isDigit = true := by
    simp only [List.any_eq_true]
    exact ⟨a, hamem, hipd a hamem⟩
  have hcount1 : ((a :: ip') ++ '.' :: fp).count '.' ≤ 1 := by
    rw [List.count_append, hdotcount_ip, List.count_cons]
    simp [hdotcount_fp]
  -- float value in the dotted form
  have hfloat1 : floatOfNumericChars ((a :: ip') ++ '.' :: fp) =
      (digitsToNat (a :: ip') : Rat) + (digitsToNat fp : Rat) / 10 ^ fp.length := by
    unfold floatOfNumericChars
    rw [takeWhile_all_append _ _ hnodotb_ip,
      takeWhile_cons_neg (fun c => decide (c ≠ '.')) '.' (by simp),
      List.append_nil,
      dropWhile_all_append _ _ hnodotb_ip,
      dropWhile_cons_neg (fun c => decide (c ≠ '.')) '.' (by simp)]
    simp
  -- float value in the dotless form
  have hfloat2 : floatOfNumericChars (a :: ip') = (digitsToNat (a :: ip') : Rat) := by
    unfold floatOfNumericChars
    have h1 : (a :: ip').takeWhile (fun c => decide (c ≠ '.')) = (a :: ip') := by
      have := takeWhile_all_append (fun c => decide (c ≠ '.')) ([] : List Char) hnodotb_ip
      simpa using this
    have h2 : (a :: ip').dropWhile (fun c => decide (c ≠ '.')) = [] := by
      have h3 := dropWhile_all_append (fun c => decide (c ≠ '.')) ([] : List Char) hnodotb_ip
      simpa using h3
    rw [h1, h2]
    simp [digitsToNat]
  refine ⟨hex1, ?_, hex2, ?_⟩
  · have hpf : pythonFloat ((a :: ip') ++ '.' :: fp) =
        some ((digitsToNat (a :: ip') : Rat) + (digitsToNat fp : Rat) / 10 ^ fp.length) := by
      unfold pythonFloat
      rw [if_pos ⟨hasdigit, hcount1⟩, hfloat1]
    simp only [normalizeValue, hex1, hpf]
  · have hpf2 : pythonFloat (a :: ip') = some ((digitsToNat (a :: ip') : Rat)) := by
      unfold pythonFloat
      rw [if_pos ⟨hasdigit2, by simp [hdotcount_ip]⟩, hfloat2]
    simp only [normalizeValue, hex2, hpf2]

/-- Witness for the amended C2: the value field "47.3C" extracts to
"47.3" and normalizes to the rational 47.3. -/
theorem c2_amended_extract_first_run_witness :
    normalizeValue ['4', '7', '.', '3', 'C'] = .ok (.num (473 / 10)) := by
  have h := (c2_amended_extract_first_run ['4', '7'] ['3'] ['C']
    (by decide) (by decide) (by decide) (by decide)).2.1
  have h1 : digitsToNat ['4', '7'] = 47 := by decide
  have h2 : digitsToNat ['3'] = 3 := by decide
  rw [show (['4', '7'] ++ '.' :: ['3'] ++ ['C'] : List Char) =
    ['4', '7', '.', '3', 'C'] from rfl] at h
  rw [h, h1, h2]
  norm_num

section MinLemmas

/-- The foldl-min accumulator never exceeds its start value. -/
lemma foldl_min_le_init (l : List Sample) (a : Int) :
    l.foldl (fun m x => min m x.datetime) a ≤ a := by
  induction l generalizing a with
  | nil => simp
  | cons x l ih => exact le_trans (ih (min a x.datetime)) (min_le_left _ _)

/-- The foldl-min accumulator is a lower bound of every traversed
timestamp. -/
lemma foldl_min_le_mem (l : List Sample) (a : Int) :
    ∀ x ∈ l, l.foldl (fun m y => min m y.datetime) a ≤ x.datetime := by
  induction l generalizing a with
  | nil =>
      intro x hx
      simp at hx
  | cons y l ih =>
      intro x hx
      rcases List.mem_cons.mp hx with h | h
      · rw [h]
        exact le_trans (foldl_min_le_init l _) (min_le_right _ _)
      · exact ih _ x h

/-- The foldl-min result is the start value or one of the traversed
timestamps. -/
lemma foldl_min_cases (l : List Sample) (a : Int) :
    l.foldl (fun m y => min m y.datetime) a = a ∨
      ∃ x ∈ l, l.foldl (fun m y => min m y.datetime) a = x.datetime := by
  induction l generalizing a with
  | nil => exact Or.inl rfl
  | cons y l ih =>
      rcases ih (min a y.datetime) with h | ⟨x, hx, h⟩
      · rcases min_choice a y.datetime with hm | hm
        · exact Or.inl (by rw [List.foldl_cons, h, hm])
        · exact Or.inr ⟨y, List.mem_cons_self y l, by rw [List.foldl_cons, h, hm]⟩
      · exact Or.inr ⟨x, List.mem_cons_of_mem y hx, by rw [List.foldl_cons, h]⟩

/-- minTime bounds every timestamp of the series from below. -/
lemma minTime_le (df : List Sample) : ∀ x ∈ df, minTime df ≤ x.datetime := by
  cases df with
  | nil =>
      intro x hx
      simp at hx
  | cons s l =>
      intro x hx
      rcases List.mem_cons.mp hx with h | h
      · rw [h, minTime]
        exact foldl_min_le_init l _
      · exact foldl_min_le_mem l _ x h

/-- minTime of a nonempty series is attained by one of its samples. -/
lemma minTime_mem (df : List Sample) (h : df ≠ []) :
    ∃ x ∈ df, minTime df = x.datetime := by
  cases df with
  | nil => exact absurd rfl h
  | cons s l =>
      rcases foldl_min_cases l s.datetime with h1 | ⟨x, hx, h1⟩
      · exact ⟨s, List.mem_cons_self s l, h1⟩
      · exact ⟨x, List.mem_cons_of_mem s hx, h1⟩

end MinLemmas

section ElapsedLemmas

/-- The elapsed-seconds array has one entry per sample. -/
lemma elapsedSeconds_length (df : List Sample) :
    (elapsedSeconds df).length = df.length := by
  simp [elapsedSeconds]

/-- Elapsed seconds are nonnegative: every timestamp is at least the
series minimum. -/
lemma elapsedSeconds_nonneg (df : List Sample) :
    ∀ u ∈ elapsedSeconds df, 0 ≤ u := by
  intro u hu
  simp only [elapsedSeconds, List.mem_map] at hu
  obtain ⟨x, hx, rfl⟩ := hu
  have h := minTime_le df x hx
  exact_mod_cast sub_nonneg.mpr h

/-- A nonempty series has elapsed time 0 (at the sample attaining the
minimum timestamp). -/
lemma elapsedSeconds_zero_mem (df : List Sample) (h : df ≠ []) :
    (0 : Rat) ∈ elapsedSeconds df := by
  obtain ⟨x, hx, hmin⟩ := minTime_mem df h
  simp only [elapsedSeconds, List.mem_map]
  refine ⟨x, hx, ?_⟩
  rw [← hmin]
  simp

/-- When every pair of samples shares one timestamp, every elapsed time
is 0. -/
lemma elapsedSeconds_all_zero (df : List Sample)
    (hsame : ∀ x ∈ df, ∀ y ∈ df, x.datetime = y.datetime) :
    ∀ u ∈ elapsedSeconds df, u = 0 := by
  intro u hu
  simp only [elapsedSeconds, List.mem_map] at hu
  obtain ⟨x, hx, rfl⟩ := hu
  have hne : df ≠ [] := by
    intro h
    rw [h] at hx
    simp at hx
  obtain ⟨y, hy, hmin⟩ := minTime_mem df hne
  rw [hmin, hsame x hx y hy]
  simp

end ElapsedLemmas

section SumLemmas

/-- A nonnegative list with zero sum is all zeros. -/
lemma sum_zero_all_zero (l : List Rat) (h : ∀ u ∈ l, 0 ≤ u)
    (hs : l.sum = 0) : ∀ u ∈ l, u = 0 := by
  induction l with
  | nil =>
      intro u hu
      simp at hu
  | cons a l ih =>
      have ha : 0 ≤ a := h a (List.mem_cons_self a l)
      have hl : 0 ≤ l.sum :=
        List.sum_nonneg (fun u hu => h u (List.mem_cons_of_mem a hu))
      rw [List.sum_cons] at hs
      have ha0 : a = 0 := by linarith
      have hl0 : l.sum = 0 := by linarith
      intro u hu
      rcases List.mem_cons.mp hu with h1 | h1
      · rw [h1]
        exact ha0
      · exact ih (fun v hv => h v (List.mem_cons_of_mem a hv)) hl0 u h1

/-- For a nonempty nonnegative list, zero mean is equivalent to all
entries being zero. -/
lemma listMean_zero_iff (l : List Rat) (h : ∀ u ∈ l, 0 ≤ u) (hne : l ≠ []) :
    listMean l = 0 ↔ ∀ u ∈ l, u = 0 := by
  have hn : (l.length : Rat) ≠ 0 := by
    simp [List.length_eq_zero, hne]
  constructor
  · intro hm
    have hs : l.sum = 0 := by
      have := hm
      unfold listMean at this
      field_simp at this
      exact this
    exact sum_zero_all_zero l h hs
  · intro hall
    unfold listMean
    rw [List.sum_eq_zero hall]
    simp

end SumLemmas

section OlsLemmas

/-- Expansion of a sum of squared deviations from a constant. -/
lemma sum_sq_dev (x : List Rat) (c : Rat) :
    (x.map (fun a => (a - c) ^ 2)).sum =
      (x.map (fun a => a ^ 2)).sum - 2 * c * x.sum + x.length * c ^ 2 := by
  induction x with
  | nil => simp
  | cons a l ih =>
      simp only [List.map_cons, List.sum_cons, List.length_cons, ih]
      push_cast
      ring

/-- Cons decomposition of the normal-equation discriminant. -/
lemma olsDenom_cons (a : Rat) (x : List Rat) :
    olsDenom (a :: x) = olsDenom x + (x.map (fun b => (b - a) ^ 2)).sum := by
  unfold olsDenom
  rw [sum_sq_dev x a]
  simp only [List.length_cons, List.map_cons, List.sum_cons]
  push_cast
  ring

/-- The discriminant is nonnegative (Cauchy-Schwarz for the all-ones
vector). -/
lemma olsDenom_nonneg (x : List Rat) : 0 ≤ olsDenom x := by
  induction x with
  | nil => simp [olsDenom]
  | cons a l ih =>
      rw [olsDenom_cons]
      have h : 0 ≤ (l.map (fun b => (b - a) ^ 2)).sum := by
        refine List.sum_nonneg ?_
        intro u hu
        simp only [List.mem_map] at hu
        obtain ⟨b, _, rfl⟩ := hu
        positivity
      linarith

/-- The discriminant is positive as soon as the list holds two distinct
values. -/
lemma olsDenom_pos (x : List Rat) (a b : Rat) (ha : a ∈ x) (hb : b ∈ x)
    (hab : a ≠ b) : 0 < olsDenom x := by
  induction x with
  | nil => simp at ha
  | cons c l ih =>
      rw [olsDenom_cons]
      have hnn := olsDenom_nonneg l
      have hsum_nn : ∀ u ∈ l.map (fun y => (y - c) ^ 2), 0 ≤ u := by
        intro u hu
        simp only [List.mem_map] at hu
        obtain ⟨y, _, rfl⟩ := hu
        positivity
      rcases List.mem_cons.mp ha with h1 | h1
      · rcases List.mem_cons.mp hb with h2 | h2
        · exact absurd (h1.trans h2.symm) hab
        · have hterm : (0 : Rat) < (b - c) ^ 2 := by
            have hne : b - c ≠ 0 := sub_ne_zero.mpr (fun h => hab (h1.trans h.symm))
            positivity
          have hle : (b - c) ^ 2 ≤ (l.map (fun y => (y - c) ^ 2)).sum :=
            List.single_le_sum hsum_nn _ (List.mem_map.mpr ⟨b, h2, rfl⟩)
          linarith
      · rcases List.mem_cons.mp hb with h2 | h2
        · have hterm : (0 : Rat) < (a - c) ^ 2 := by
            have hne : a - c ≠ 0 := sub_ne_zero.mpr (fun h => hab (h.trans h2.symm))
            positivity
          have hle : (a - c) ^ 2 ≤ (l.map (fun y => (y - c) ^ 2)).sum :=
            List.single_le_sum hsum_nn _ (List.mem_map.mpr ⟨a, h1, rfl⟩)
          linarith
        · have := ih h1 h2
          have hs : 0 ≤ (l.map (fun y => (y - c) ^ 2)).sum :=
            List.sum_nonneg hsum_nn
          linarith

end OlsLemmas

section OlsFormLemmas

/-- Expansion of the sum of products of deviations over zipped lists of
equal length. -/
lemma sum_zip_dev (x y : List Rat) (hlen : x.length = y.length) (c e : Rat) :
    ((x.zip y).map (fun p => (p.1 - c) * (p.2 - e))).sum =
      ((x.zip y).map (fun p => p.1 * p.2)).sum - e * x.sum - c * y.sum +
        x.length * (c * e) := by
  induction x generalizing y with
  | nil =>
      cases y with
      | nil => simp
      | cons b m => simp at hlen
  | cons a l ih =>
      cases y with
      | nil => simp at hlen
      | cons b m =>
          have h : l.length = m.length := by simpa using hlen
          simp only [List.zip_cons_cons, List.map_cons, List.sum_cons,
            List.length_cons, ih m h]
          push_cast
          ring

/-- A nonzero discriminant forces a nonempty list. -/
lemma ne_nil_of_olsDenom_ne_zero (x : List Rat) (hd : olsDenom x ≠ 0) :
    x ≠ [] := by
  intro h
  rw [h] at hd
  simp [olsDenom] at hd

/-- A nonzero discriminant forces some nonzero entry impossible when all
entries vanish. -/
lemma not_all_zero_of_olsDenom_ne_zero (x : List Rat) (hd : olsDenom x ≠ 0) :
    ¬(∀ u ∈ x, u = 0) := by
  intro hall
  apply hd
  unfold olsDenom
  rw [List.sum_eq_zero hall, List.sum_eq_zero]
  · ring
  · intro u hu
    simp only [List.mem_map] at hu
    obtain ⟨a, ha, rfl⟩ := hu
    rw [hall a ha]
    ring

/-- The covariance form of the OLS slope equals the normal-equations
form used by np.polyfit, whenever the discriminant is nonzero. -/
lemma specOlsSlope_eq_form (x y : List Rat) (hlen : x.length = y.length)
    (hd : olsDenom x ≠ 0) :
    specOlsSlope x y =
      ((x.length : Rat) * ((x.zip y).map (fun p => p.1 * p.2)).sum -
        x.sum * y.sum) / olsDenom x := by
  have hne : x ≠ [] := ne_nil_of_olsDenom_ne_zero x hd
  have hn : (x.length : Rat) ≠ 0 := by
    simp [List.length_eq_zero, hne]
  have hd' : (x.length : Rat) * (x.map (fun a => a ^ 2)).sum - x.sum ^ 2 ≠ 0 := hd
  unfold specOlsSlope listMean
  rw [sum_zip_dev x y hlen, sum_sq_dev, ← hlen]
  rw [div_eq_div_iff]
  · unfold olsDenom
    field_simp
    ring
  · intro h
    apply hd'
    have hexp : (x.map (fun a => a ^ 2)).sum - 2 * (x.sum / x.length) * x.sum +
        x.length * (x.sum / x.length) ^ 2 =
        ((x.length : Rat) * (x.map (fun a => a ^ 2)).sum - x.sum ^ 2) / x.length := by
      field_simp
      ring
    rw [hexp] at h
    exact (div_eq_zero_iff.mp h).resolve_right hn
  · exact hd'

/-- The covariance-form OLS intercept equals the normal-equations form
used by np.polyfit, whenever the discriminant is nonzero. -/
lemma specOlsIntercept_eq_form (x y : List Rat) (hlen : x.length = y.length)
    (hd : olsDenom x ≠ 0) :
    specOlsIntercept x y =
      (y.sum - ((x.length : Rat) * ((x.zip y).map (fun p => p.1 * p.2)).sum -
        x.sum * y.sum) / olsDenom x * x.sum) / x.length := by
  have hne : x ≠ [] := ne_nil_of_olsDenom_ne_zero x hd
  have hn : (x.length : Rat) ≠ 0 := by
    simp [List.length_eq_zero, hne]
  unfold specOlsIntercept listMean
  rw [specOlsSlope_eq_form x y hlen hd, ← hlen]
  field_simp
  ring

/-- np.polyfit on a series with nonzero discriminant returns exactly the
textbook OLS slope and intercept. -/
lemma np_polyfit1_eq_spec (x y : List Rat) (hlen : x.length = y.length)
    (hd : olsDenom x ≠ 0) :
    np_polyfit1 x y = .ok (specOlsSlope x y, specOlsIntercept x y) := by
  have hne : x ≠ [] := ne_nil_of_olsDenom_ne_zero x hd
  have hlen0 : ¬(x.length = 0) := by
    simp [List.length_eq_zero, hne]
  have hall : ¬(x.all (fun a => decide (a = 0)) = true) := by
    intro h
    refine not_all_zero_of_olsDenom_ne_zero x hd ?_
    intro u hu
    have := List.all_eq_true.mp h u hu
    simpa using this
  have hd' : ¬((x.length : Rat) * (x.map (fun a => a ^ 2)).sum - x.sum ^ 2 = 0) := hd
  simp only [np_polyfit1]
  rw [if_neg hlen0, if_neg hall, if_neg hd',
    specOlsSlope_eq_form x y hlen hd, specOlsIntercept_eq_form x y hlen hd]
  rfl

/-- np.polyfit aborts with the SVD LinAlgError on a nonempty all-zero x
vector. -/
lemma np_polyfit1_all_zero (x y : List Rat) (hne : x ≠ [])
    (hz : ∀ u ∈ x, u = 0) :
    np_polyfit1 x y = .error .svdNotConverged := by
  have hlen0 : ¬(x.length = 0) := by
    simp [List.length_eq_zero, hne]
  have hall : x.all (fun a => decide (a = 0)) = true := by
    rw [List.all_eq_true]
    intro u hu
    simp [hz u hu]
  simp only [np_polyfit1]
  rw [if_neg hlen0, if_pos hall]

end OlsFormLemmas

/-- A nonzero mean elapsed time forces a nonzero OLS discriminant on the
elapsed-seconds array: elapsed times are nonnegative with 0 attained, so
a nonzero mean yields two distinct entries. -/
lemma olsDenom_elapsed_ne_zero (df : List Sample) (hne : df ≠ [])
    (hm : listMean (elapsedSeconds df) ≠ 0) :
    olsDenom (elapsedSeconds df) ≠ 0 := by
  have hene : elapsedSeconds df ≠ [] := by
    simp [elapsedSeconds, hne]
  have hnn := elapsedSeconds_nonneg df
  have h0 := elapsedSeconds_zero_mem df hne
  have hnotall : ¬ ∀ u ∈ elapsedSeconds df, u = 0 := by
    intro hall
    exact hm ((listMean_zero_iff _ hnn hene).mpr hall)
  push_neg at hnotall
  obtain ⟨u, hu, hune⟩ := hnotall
  exact (olsDenom_pos _ 0 u h0 hu (Ne.symm hune)).ne'

/-- Claim C5: when filtering leaves zero samples, the run terminates as a
reported zero-data outcome before statistics or fitting, and no error
propagates. -/
theorem c5_empty_filter_zero_data (solver : CurveFitArgs → SolverOutcome)
    (df : List Sample) (startTime endTime : Option Int)
    (h : filter_timeframe df startTime endTime = []) :
    runAnalysis solver df startTime endTime = .ok .zeroData := by
  simp [runAnalysis, h]

/-- Witness for C5, the spec scenario: a start bound after the last
timestamp empties the series and the run reports zero data normally. -/
theorem c5_empty_filter_zero_data_witness :
    runAnalysis (fun _ => SolverOutcome.runtimeError)
      [⟨1704067200, 40⟩, ⟨1704070800, 42⟩, ⟨1704074400, 43⟩]
      (some 1704074401) none = .ok .zeroData :=
  c5_empty_filter_zero_data _ _ _ _ (by decide)

/-- Claim C6: the summary statistics fail loudly on degenerate input:
on a length-0 series np.polyfit raises (TypeError, empty x vector), and
on a series whose timestamps — hence elapsed times — are all identical,
the all-zero hour column makes np.polyfit raise (LinAlgError); neither
case returns a silent default. -/
theorem c6_degenerate_input_raises :
    analyze_data [] = .error .emptyVector ∧
    ∀ df : List Sample, df ≠ [] →
      (∀ x ∈ df, ∀ y ∈ df, x.datetime = y.datetime) →
      analyze_data df = .error .svdNotConverged := by
  constructor
  · rfl
  · intro df hne hsame
    have hz : ∀ u ∈ (elapsedSeconds df).map (fun t => t / 3600), u = 0 := by
      intro u hu
      simp only [List.mem_map] at hu
      obtain ⟨t, ht, rfl⟩ := hu
      rw [elapsedSeconds_all_zero df hsame t ht]
      simp
    have hhne : (elapsedSeconds df).map (fun t => t / 3600) ≠ [] := by
      simp [elapsedSeconds, hne]
    simp only [analyze_data]
    rw [np_polyfit1_all_zero _ _ hhne hz]

/-- Witness for C6: two samples at one instant make analyze_data raise
rather than return statistics. -/
theorem c6_degenerate_input_raises_witness :
    analyze_data [⟨5, 40⟩, ⟨5, 41⟩] = .error .svdNotConverged :=
  c6_degenerate_input_raises.2 [⟨5, 40⟩, ⟨5, 41⟩] (by decide) (by decide)

/-- Two list members with different timestamps force length at least
two. -/
lemma two_le_length_of_distinct {l : List Sample} {x y : Sample}
    (hx : x ∈ l) (hy : y ∈ l) (hxy : x.datetime ≠ y.datetime) :
    2 ≤ l.length := by
  cases l with
  | nil => simp at hx
  | cons a t =>
      cases t with
      | nil =>
          simp only [List.mem_singleton] at hx hy
          exact absurd (hx ▸ hy ▸ rfl) hxy
      | cons b u => simp [Nat.succ_le_succ]

/-- Claim C7: on a series with two distinct timestamps, analyze_data
returns the sample mean, the N-1-denominator sample variance, and the
ordinary-least-squares slope (covariance form) of value against elapsed
hours since the series' own minimum timestamp. -/
theorem c7_summary_statistics (df : List Sample)
    (hdist : ∃ x ∈ df, ∃ y ∈ df, x.datetime ≠ y.datetime) :
    analyze_data df = .ok
      ⟨(df.map Sample.value).sum / (df.map Sample.value).length,
       some (((df.map Sample.value).map
          (fun v => (v - listMean (df.map Sample.value)) ^ 2)).sum /
         (((df.map Sample.value).length : Rat) - 1)),
       specOlsSlope ((elapsedSeconds df).map (fun t => t / 3600))
         (df.map Sample.value)⟩ := by
  obtain ⟨x, hx, y, hy, hxy⟩ := hdist
  have hne : df ≠ [] := by
    intro h
    rw [h] at hx
    simp at hx
  have hlen2 : 2 ≤ df.length := two_le_length_of_distinct hx hy hxy
  -- the two samples give two distinct entries of the hour column
  have hmem : ∀ z ∈ df, ((z.datetime - minTime df : Int) : Rat) / 3600 ∈
      (elapsedSeconds df).map (fun t => t / 3600) := by
    intro z hz
    simp only [elapsedSeconds, List.map_map, List.mem_map]
    exact ⟨z, hz, rfl⟩
  have hdiff : ((x.datetime - minTime df : Int) : Rat) / 3600 ≠
      ((y.datetime - minTime df : Int) : Rat) / 3600 := by
    intro h
    apply hxy
    field_simp at h
    exact h
  have hd : olsDenom ((elapsedSeconds df).map (fun t => t / 3600)) ≠ 0 :=
    (olsDenom_pos _ _ _ (hmem x hx) (hmem y hy) hdiff).ne'
  have hlen : ((elapsedSeconds df).map (fun t => t / 3600)).length =
      (df.map Sample.value).length := by
    simp [elapsedSeconds]
  have hpoly := np_polyfit1_eq_spec _ (df.map Sample.value) hlen hd
  have hlt : ¬((df.map Sample.value).length < 2) := by
    simp only [List.length_map]
    omega
  have hvar : pandasVar (df.map Sample.value) =
      some (((df.map Sample.value).map
        (fun v => (v - listMean (df.map Sample.value)) ^ 2)).sum /
        (((df.map Sample.value).length : Rat) - 1)) := by
    unfold pandasVar
    rw [if_neg hlt]
  simp only [analyze_data]
  rw [hpoly]
  simp only [hvar]
  rfl

/-- Witness for C7, the spec's end-to-end scenario: three hourly samples
40.0, 42.0, 43.0 give mean 125/3 (≈ 41.67), sample variance 7/3, and a
rise of 3/2 degrees per hour. -/
theorem c7_summary_statistics_witness :
    analyze_data [⟨1704067200, 40⟩, ⟨1704070800, 42⟩, ⟨1704074400, 43⟩] =
      .ok ⟨125 / 3, some (7 / 3), 3 / 2⟩ := by
  have h := c7_summary_statistics
    [⟨1704067200, 40⟩, ⟨1704070800, 42⟩, ⟨1704074400, 43⟩]
    ⟨⟨1704067200, 40⟩, by decide, ⟨1704070800, 42⟩, by decide, by decide⟩
  rw [h]
  simp only [Except.ok.injEq, Stats.mk.injEq]
  norm_num [specOlsSlope, listMean, elapsedSeconds, minTime]

/-- Claim C8: whenever the nonlinear solver reports its convergence
failure (RuntimeError), fit_trend returns the linear fallback whose
slope and intercept are the ordinary-least-squares degree-1 fit of value
against elapsed seconds (covariance form), the fallback warning is
reported, and no error escapes.  A nonzero mean elapsed time is exactly
the condition under which the solver is consulted at all. -/
theorem c8_runtime_error_linear_fallback
    (solver : CurveFitArgs → SolverOutcome) (df : List Sample)
    (hm : listMean (elapsedSeconds df) ≠ 0)
    (hsolver : solver (curveFitArgs df) = .runtimeError) :
    fit_trend solver df =
      .ok ⟨elapsedSeconds df,
        .linFit (specOlsSlope (elapsedSeconds df) (df.map Sample.value))
          (specOlsIntercept (elapsedSeconds df) (df.map Sample.value)),
        true⟩ := by
  have hne : df ≠ [] := by
    intro h
    rw [h] at hm
    simp [elapsedSeconds, listMean] at hm
  have hlen0 : ¬((df.map Sample.value).length = 0) := by
    simp [List.length_eq_zero, hne]
  have hd : olsDenom (elapsedSeconds df) ≠ 0 :=
    olsDenom_elapsed_ne_zero df hne hm
  have hlen : (elapsedSeconds df).length = (df.map Sample.value).length := by
    simp [elapsedSeconds]
  have hpoly := np_polyfit1_eq_spec _ (df.map Sample.value) hlen hd
  simp only [fit_trend]
  rw [if_neg hlen0, if_neg hm, hsolver]
  rw [hpoly]

/-- Witness for C8: two samples an hour apart with a failing solver
yield the linear fallback with slope 1/1800 per second and intercept
40. -/
theorem c8_runtime_error_linear_fallback_witness :
    fit_trend (fun _ => SolverOutcome.runtimeError) [⟨0, 40⟩, ⟨3600, 42⟩] =
      .ok ⟨[0, 3600], .linFit (1 / 1800) 40, true⟩ := by
  have hm : listMean (elapsedSeconds [⟨0, 40⟩, ⟨3600, 42⟩]) ≠ 0 := by
    norm_num [listMean, elapsedSeconds, minTime]
  have h := c8_runtime_error_linear_fallback
    (fun _ => SolverOutcome.runtimeError) [⟨0, 40⟩, ⟨3600, 42⟩] hm rfl
  rw [h]
  simp only [Except.ok.injEq, FitOutput.mk.injEq, FitResult.linFit.injEq]
  norm_num [specOlsSlope, specOlsIntercept, listMean, elapsedSeconds, minTime]

/-- Claim C9: on any series the fitter reaches with a finite rate guess,
the curve_fit call receives exactly the elapsed-seconds x data, the
temperature y data, the initial guesses a = max value, b = max value -
min value, c = 1 / mean elapsed seconds, and the bounds [0, +inf) on all
three parameters; the fit outcome is determined by the solver's verdict
on exactly that argument package. -/
theorem c9_curve_fit_seeding (df : List Sample) (hne : df ≠ [])
    (hm : listMean (elapsedSeconds df) ≠ 0) :
    (curveFitArgs df).xdata = elapsedSeconds df ∧
    (curveFitArgs df).ydata = df.map Sample.value ∧
    (curveFitArgs df).p0 =
      (listMax (df.map Sample.value),
       listMax (df.map Sample.value) - listMin (df.map Sample.value),
       1 / listMean (elapsedSeconds df)) ∧
    (curveFitArgs df).lowerBounds = (0, 0, 0) ∧
    (curveFitArgs df).upperBounds = (none, none, none) ∧
    (∀ solver a b c, solver (curveFitArgs df) = .converged a b c →
      fit_trend solver df = .ok ⟨elapsedSeconds df, .expFit a b c, false⟩) := by
  refine ⟨rfl, rfl, rfl, rfl, rfl, ?_⟩
  intro solver a b c hs
  have hlen0 : ¬((df.map Sample.value).length = 0) := by
    simp [List.length_eq_zero, hne]
  simp only [fit_trend]
  rw [if_neg hlen0, if_neg hm, hs]

/-- Witness for C9: an echo solver shows the guesses actually handed to
curve_fit on a concrete series: a = 42, b = 2, c = 1/1800. -/
theorem c9_curve_fit_seeding_witness :
    fit_trend (fun args => SolverOutcome.converged args.p0.1 args.p0.2.1 args.p0.2.2)
      [⟨0, 40⟩, ⟨3600, 42⟩] =
      .ok ⟨elapsedSeconds [⟨0, 40⟩, ⟨3600, 42⟩], .expFit 42 2 (1 / 1800), false⟩ := by
  have hm : listMean (elapsedSeconds [⟨0, 40⟩, ⟨3600, 42⟩]) ≠ 0 := by
    norm_num [listMean, elapsedSeconds, minTime]
  have h9 := c9_curve_fit_seeding [⟨0, 40⟩, ⟨3600, 42⟩] (by decide) hm
  refine h9.2.2.2.2.2 _ 42 2 (1 / 1800) ?_
  show SolverOutcome.converged _ _ _ = _
  rw [h9.2.2.1]
  norm_num [listMax, listMin, listMean, elapsedSeconds, minTime]

/-- Claim C10: the rate-guess division in fit_trend is unguarded: on any
nonempty series whose samples all carry one timestamp, the mean elapsed
time is 0, c_guess becomes 1/0 (inf), and for every solver the fitter
ends in the uncaught non-finite-guess failure instead of any exponential
fit. -/
theorem c10_zero_span_unguarded_division (df : List Sample) (hne : df ≠ [])
    (hsame : ∀ x ∈ df, ∀ y ∈ df, x.datetime = y.datetime) :
    listMean (elapsedSeconds df) = 0 ∧
    ∀ solver, fit_trend solver df = .error .nonFiniteGuess := by
  have hene : elapsedSeconds df ≠ [] := by
    simp [elapsedSeconds, hne]
  have hz := elapsedSeconds_all_zero df hsame
  have hmean : listMean (elapsedSeconds df) = 0 :=
    (listMean_zero_iff _ (fun u hu => le_of_eq (hz u hu).symm) hene).mpr hz
  refine ⟨hmean, fun solver => ?_⟩
  have hlen0 : ¬((df.map Sample.value).length = 0) := by
    simp [List.length_eq_zero, hne]
  simp only [fit_trend]
  rw [if_neg hlen0, if_pos hmean]

/-- Witness for C10: even a single-sample series (one timestamp) sends
the fitter into the unguarded 1/0 rate guess and the uncaught failure. -/
theorem c10_zero_span_unguarded_division_witness :
    listMean (elapsedSeconds [⟨7, 40⟩]) = 0 ∧
    fit_trend (fun _ => SolverOutcome.runtimeError) [⟨7, 40⟩] =
      .error .nonFiniteGuess := by
  have h := c10_zero_span_unguarded_division [⟨7, 40⟩] (by decide) (by decide)
  exact ⟨h.1, h.2 _⟩
